import Mathlib

/-!
Verification of the streaming relay engine of the mastra-slack repository.

The embedding below models, from the source:
* src/lib/slack/manifest-generator.ts (third section): `streamToSlack`,
  `updateSlackMessage`, `fetchAgentTools`, `formatToolName`, the animation
  loop and the newline-buffered event decoder;
* src/mastra/slack/streaming.ts: `getStatusText`, `formatToolName`
  and the catch-block of its `streamToSlack`.

JSON payloads are modelled by the `JVal` type together with an executable
parser `jsonParse` standing for `JSON.parse` (string, number, object, array,
boolean and null forms; object field access models JavaScript property
access restricted to the string-valued fields the relay reads).
-/

/-- A parsed JSON value (model of the result of `JSON.parse`).  Numbers keep
their lexeme; the relay never reads a numeric field. -/
inductive JVal where
  | null
  | bool (b : Bool)
  | num (lexeme : String)
  | str (s : String)
  | arr (items : List JVal)
  | obj (fields : List (String × JVal))

/-- JSON insignificant whitespace. -/
def isJsonWs (c : Char) : Bool :=
  c = ' ' || c = '\t' || c = '\n' || c = '\r'

def skipWs (cs : List Char) : List Char :=
  cs.dropWhile isJsonWs

def hexVal (c : Char) : Option Nat :=
  if c.isDigit then
    some (c.toNat - 48)
  else
    match c.toLower with
    | 'a' => some 10
    | 'b' => some 11
    | 'c' => some 12
    | 'd' => some 13
    | 'e' => some 14
    | 'f' => some 15
    | _ => none

/-- Scan the body of a JSON string after the opening quote; returns the
content characters and the input following the closing quote. -/
def parseStrAux : List Char → Option (List Char × List Char)
  | [] => none
  | '"' :: rest => some ([], rest)
  | '\\' :: 'u' :: a :: b :: c :: d :: rest =>
    match hexVal a, hexVal b, hexVal c, hexVal d with
    | some ha, some hb, some hc, some hd =>
      match parseStrAux rest with
      | some (content, r2) =>
        some (Char.ofNat (((ha * 16 + hb) * 16 + hc) * 16 + hd) :: content, r2)
      | none => none
    | _, _, _, _ => none
  | '\\' :: e :: rest =>
    match
      (match e with
       | '"' => some '"'
       | '\\' => some '\\'
       | '/' => some '/'
       | 'b' => some (Char.ofNat 8)
       | 'f' => some (Char.ofNat 12)
       | 'n' => some '\n'
       | 'r' => some '\r'
       | 't' => some '\t'
       | _ => none) with
    | some ch =>
      match parseStrAux rest with
      | some (content, r2) => some (ch :: content, r2)
      | none => none
    | none => none
  | c :: rest =>
    if c.toNat < 32 then none
    else
      match parseStrAux rest with
      | some (content, r2) => some (c :: content, r2)
      | none => none

/-- Scan a JSON number; returns its lexeme and the rest of the input. -/
def parseNumber (cs : List Char) : Option (List Char × List Char) :=
  let (sign, cs1) :=
    match cs with
    | '-' :: r => (['-'], r)
    | _ => (([] : List Char), cs)
  let intPart : Option (List Char × List Char) :=
    match cs1 with
    | '0' :: r => some (['0'], r)
    | c :: _ =>
      if c.isDigit then
        some (cs1.takeWhile Char.isDigit, cs1.dropWhile Char.isDigit)
      else none
    | [] => none
  match intPart with
  | none => none
  | some (ip, cs2) =>
    let (fp, cs3) :=
      match cs2 with
      | '.' :: r =>
        let ds := r.takeWhile Char.isDigit
        if ds = [] then ([], cs2) else ('.' :: ds, r.dropWhile Char.isDigit)
      | _ => (([] : List Char), cs2)
    let (ep, cs4) :=
      match cs3 with
      | 'e' :: r =>
        let (es, r1) :=
          match r with
          | '+' :: r2 => (['e', '+'], r2)
          | '-' :: r2 => (['e', '-'], r2)
          | _ => (['e'], r)
        let ds := r1.takeWhile Char.isDigit
        if ds = [] then ([], cs3) else (es ++ ds, r1.dropWhile Char.isDigit)
      | 'E' :: r =>
        let (es, r1) :=
          match r with
          | '+' :: r2 => (['E', '+'], r2)
          | '-' :: r2 => (['E', '-'], r2)
          | _ => (['E'], r)
        let ds := r1.takeWhile Char.isDigit
        if ds = [] then ([], cs3) else (es ++ ds, r1.dropWhile Char.isDigit)
      | _ => (([] : List Char), cs3)
    let badFrac : Bool :=
      match cs2 with
      | '.' :: r => r.takeWhile Char.isDigit = []
      | _ => false
    if badFrac then none
    else some (sign ++ ip ++ fp ++ ep, cs4)

mutual

/-- Parse one JSON value (fuel-indexed model of the recursive descent done
by `JSON.parse`). -/
def parseValue : Nat → List Char → Option (JVal × List Char)
  | 0, _ => none
  | fuel + 1, cs =>
    match skipWs cs with
    | '{' :: rest =>
      (match skipWs rest with
       | '}' :: r2 => some (JVal.obj [], r2)
       | r2 =>
         match parseMembersAux fuel r2 [] with
         | some (fs, r3) => some (JVal.obj fs, r3)
         | none => none)
    | '[' :: rest =>
      (match skipWs rest with
       | ']' :: r2 => some (JVal.arr [], r2)
       | r2 =>
         match parseItemsAux fuel r2 [] with
         | some (items, r3) => some (JVal.arr items, r3)
         | none => none)
    | '"' :: rest =>
      (match parseStrAux rest with
       | some (content, r2) => some (JVal.str (String.mk content), r2)
       | none => none)
    | 't' :: 'r' :: 'u' :: 'e' :: rest => some (JVal.bool true, rest)
    | 'f' :: 'a' :: 'l' :: 's' :: 'e' :: rest => some (JVal.bool false, rest)
    | 'n' :: 'u' :: 'l' :: 'l' :: rest => some (JVal.null, rest)
    | c :: rest =>
      if c = '-' || c.isDigit then
        match parseNumber (c :: rest) with
        | some (lex, r2) => some (JVal.num (String.mk lex), r2)
        | none => none
      else none
    | [] => none

/-- Parse the members of a JSON object after the opening brace. -/
def parseMembersAux : Nat → List Char → List (String × JVal) →
    Option (List (String × JVal) × List Char)
  | 0, _, _ => none
  | fuel + 1, cs, acc =>
    match skipWs cs with
    | '"' :: rest =>
      (match parseStrAux rest with
       | some (key, r2) =>
         (match skipWs r2 with
          | ':' :: r3 =>
            (match parseValue fuel r3 with
             | some (v, r4) =>
               let acc2 := acc ++ [(String.mk key, v)]
               (match skipWs r4 with
                | ',' :: r5 => parseMembersAux fuel r5 acc2
                | '}' :: r5 => some (acc2, r5)
                | _ => none)
             | none => none)
          | _ => none)
       | none => none)
    | _ => none

/-- Parse the items of a JSON array after the opening bracket. -/
def parseItemsAux : Nat → List Char → List JVal →
    Option (List JVal × List Char)
  | 0, _, _ => none
  | fuel + 1, cs, acc =>
    match parseValue fuel cs with
    | some (v, r2) =>
      let acc2 := acc ++ [v]
      (match skipWs r2 with
       | ',' :: r3 => parseItemsAux fuel r3 acc2
       | ']' :: r3 => some (acc2, r3)
       | _ => none)
    | none => none

end

/-- Model of `JSON.parse` on a line already split out of the byte stream:
`some` on a valid JSON document, `none` when `JSON.parse` would throw. -/
def jsonParse (cs : List Char) : Option JVal :=
  match parseValue (cs.length + 1) cs with
  | some (j, rest) => if skipWs rest = [] then some j else none
  | none => none

/-- JavaScript property lookup on an object literal: with duplicate keys the
last occurrence wins (`JSON.parse` keeps the last binding). -/
def lookupLast (fields : List (String × JVal)) (k : String) : Option JVal :=
  fields.foldl (fun acc kv => if kv.1 = k then some kv.2 else acc) none

/-- `j.k` — property access; `undefined` (`none`) on non-objects, which is
what optional chaining yields for the accesses the relay performs. -/
def JVal.getField : JVal → String → Option JVal
  | .obj fields, k => lookupLast fields k
  | _, _ => none

/-- The string value of field `k`, when it is a string. -/
def getStrField (j : JVal) (k : String) : Option String :=
  match j.getField k with
  | some (.str s) => some s
  | _ => none

/-- The string value of field `k` when it is a truthy (non-empty) string —
models a `x.k || ...` fallthrough chain member. -/
def strFieldNE (j : JVal) (k : String) : Option String :=
  match getStrField j k with
  | some s => if s = "" then none else some s
  | none => none

/-- `j.k1?.k2` restricted to truthy string results. -/
def pathStrNE (j : JVal) (k1 k2 : String) : Option String :=
  match j.getField k1 with
  | some p => strFieldNE p k2
  | none => none

/-- `parsed.payload?.toolName || parsed.tool_name || parsed.toolName || "tool"`
(manifest-generator streamToSlack). -/
def rawToolNameOf (j : JVal) : String :=
  ((pathStrNE j "payload" "toolName" <|> strFieldNE j "tool_name") <|>
    strFieldNE j "toolName").getD "tool"

/-- `parsed.payload?.text || parsed.text || parsed.content || ""`. -/
def textChunkOf (j : JVal) : String :=
  ((pathStrNE j "payload" "text" <|> strFieldNE j "text") <|>
    strFieldNE j "content").getD ""

/-- `parsed.payload?.request?.body?.tools`. -/
def toolsOf (j : JVal) : Option JVal :=
  match j.getField "payload" with
  | some p =>
    (match p.getField "request" with
     | some r =>
       (match r.getField "body" with
        | some b => b.getField "tools"
        | none => none)
     | none => none)
  | none => none

/-- The `(name, description)` pairs registered from a step-start event:
array elements whose `name` and `description` are truthy strings. -/
def extractToolDescs (j : JVal) : List (String × String) :=
  match toolsOf j with
  | some (.arr ts) =>
    ts.filterMap (fun t =>
      match strFieldNE t "name", strFieldNE t "description" with
      | some n, some d => some (n, d)
      | _, _ => none)
  | _ => []

/-- `parsed.type`. -/
def typeOf (j : JVal) : Option String :=
  getStrField j "type"

/-- The typed relay event a parsed line carries (the closed tagged-variant
view of the duck-typed dispatch in streamToSlack). -/
inductive RelayEvent where
  | stepStart (tools : List (String × String))
  | toolCallStart (rawToolName : String)
  | toolCallEnd
  | textDelta (chunk : String)
  | meta
  | unknown
deriving DecidableEq, Repr

/-- Classify a parsed JSON event, following the dispatch chain of
streamToSlack.  A step-start event both registers tool descriptions and is
otherwise treated as metadata; since `"step-start"` matches none of the
earlier branches, it is classified as its own variant carrying the
registered pairs. -/
def classifyParsed (j : JVal) : RelayEvent :=
  let ty := typeOf j
  if ty = some "tool-call" ∨ ty = some "tool_call_start" ∨
      ty = some "tool-call-start" then
    .toolCallStart (rawToolNameOf j)
  else if ty = some "tool-call-end" ∨ ty = some "tool-result" then
    .toolCallEnd
  else if ty = some "text-delta" ∨ ty = some "text" ∨ ty = some "content" then
    .textDelta (textChunkOf j)
  else if ty = some "step-start" then
    .stepStart (extractToolDescs j)
  else if ty = some "text-start" ∨ ty = some "text-end" ∨
      ty = some "step-finish" ∨ ty = some "finish" ∨
      ty = some "tool-call-delta" ∨ ty = some "tool-call-input-streaming-end" then
    .meta
  else
    .unknown

/-- Relay workflow status (manifest-generator `WorkflowStep.status`). -/
inductive Status where
  | thinking
  | tool_call
  | responding
deriving DecidableEq, Repr

/-- `WorkflowStep` of manifest-generator. -/
structure WorkflowStep where
  status : Status
  toolName : Option String := none
deriving DecidableEq, Repr

/-- `Map.get` over a `Map` represented as its insertion sequence: the last
insertion for a key wins, as for the mutable `Map`. -/
def mapGet (m : List (String × String)) (k : String) : Option String :=
  m.foldl (fun acc kv => if kv.1 = k then some kv.2 else acc) none

/-- `Map.set`. -/
def mapSet (m : List (String × String)) (k v : String) : List (String × String) :=
  m ++ [(k, v)]

def isSep (c : Char) : Bool :=
  c = '-' || c = '_'

/-- `toolId.split(/[-_]/)`. -/
def splitSep : List Char → List (List Char)
  | [] => [[]]
  | c :: cs =>
    let r := splitSep cs
    if isSep c then [] :: r
    else
      match r with
      | [] => [[c]]
      | w :: ws => (c :: w) :: ws

/-- `word.charAt(0).toUpperCase() + word.slice(1)`. -/
def capitalizeWord (w : List Char) : String :=
  match w with
  | [] => ""
  | c :: rest => String.mk (c.toUpper :: rest)

/-- `formatToolName` — convert kebab-case and snake_case to Title Case
(identical in manifest-generator and streaming.ts). -/
def formatToolName (toolId : String) : String :=
  String.intercalate " " ((splitSep toolId.data).map capitalizeWord)

/-- Tool display-name resolution of streamToSlack (manifest-generator):
pre-fetched tool id first, then stream-registered description, then the raw
internal name. -/
def resolveDisplayName (toolIdMap toolDescriptions : List (String × String))
    (rawToolName : String) : String :=
  match mapGet toolIdMap rawToolName with
  | some tid => formatToolName tid
  | none =>
    match mapGet toolDescriptions rawToolName with
    | some d => d
    | none => rawToolName

/-- The mutable relay state of one streamToSlack invocation. -/
structure RelaySt where
  accumulatedText : String
  workflowStep : WorkflowStep
  toolDescriptions : List (String × String)
  loadingIndex : Nat
  buffer : List Char
deriving DecidableEq, Repr

def initSt : RelaySt :=
  { accumulatedText := ""
    workflowStep := { status := .thinking }
    toolDescriptions := []
    loadingIndex := 0
    buffer := [] }

/-- Effect of one decoded relay event on the relay state (the body of the
dispatch chain in streamToSlack). -/
def applyEvent (toolIdMap : List (String × String)) (st : RelaySt) :
    RelayEvent → RelaySt
  | .stepStart pairs =>
    { st with toolDescriptions :=
        pairs.foldl (fun m p => mapSet m p.1 p.2) st.toolDescriptions }
  | .toolCallStart raw =>
    { st with workflowStep :=
        { status := .tool_call
          toolName := some (resolveDisplayName toolIdMap st.toolDescriptions raw) } }
  | .toolCallEnd =>
    { st with workflowStep := { status := .responding } }
  | .textDelta chunk =>
    if chunk = "" then st
    else
      { st with
          accumulatedText := st.accumulatedText ++ chunk
          workflowStep := { status := .responding } }
  | .meta => st
  | .unknown => st

/-- Decode one complete line of the inbound stream: lines without the
`"data: "` marker carry nothing, the `[DONE]` sentinel carries nothing, a
payload `JSON.parse` would reject carries nothing, and any other payload
yields its classified event. -/
def decodeLine (line : List Char) : Option RelayEvent :=
  if line.take 6 = "data: ".data then
    let data := line.drop 6
    if data = "[DONE]".data then none
    else
      match jsonParse data with
      | some j => some (classifyParsed j)
      | none => none
  else none

/-- Process one complete line against the relay state. -/
def processLine (toolIdMap : List (String × String)) (st : RelaySt)
    (line : List Char) : RelaySt :=
  match decodeLine line with
  | some e => applyEvent toolIdMap st e
  | none => st

def processLines (toolIdMap : List (String × String)) (st : RelaySt)
    (lines : List (List Char)) : RelaySt :=
  lines.foldl (processLine toolIdMap) st

/-- The text payload a line contributes to `accumulatedText`. -/
def lineText (line : List Char) : String :=
  match decodeLine line with
  | some (.textDelta s) => s
  | _ => ""

/-- `buffer.split("\n")` followed by `buffer = lines.pop()`: the complete
(newline-terminated) lines of the input, and the trailing partial line. -/
def splitNl : List Char → List (List Char) × List Char
  | [] => ([], [])
  | c :: cs =>
    if c = '\n' then ([] :: (splitNl cs).1, (splitNl cs).2)
    else
      match (splitNl cs).1 with
      | [] => ([], c :: (splitNl cs).2)
      | l :: ls => ((c :: l) :: ls, (splitNl cs).2)

/-- Feed chunks through the decoder buffer exactly as the read loop does:
append the chunk, split on newline, keep the trailing partial line. -/
def feedChunks : List Char → List (List Char) → List (List Char) × List Char
  | buf, [] => ([], buf)
  | buf, ch :: rest =>
    let p := splitNl (buf ++ ch)
    let q := feedChunks p.2 rest
    (p.1 ++ q.1, q.2)

/-- The relay events produced by feeding the given chunks. -/
def eventsOfChunks (chunks : List (List Char)) : List RelayEvent :=
  (feedChunks [] chunks).1.filterMap decodeLine

def eventsOfLines (lines : List (List Char)) : List RelayEvent :=
  lines.filterMap decodeLine

def LOADING_EMOJIS : List String :=
  ["⠋", "⠙", "⠹", "⠸", "⠼", "⠴", "⠦", "⠧", "⠇", "⠏"]

def WORKFLOW_EMOJIS : List String :=
  ["🔄", "⚙️", "🔧", "⚡"]

/-- The two display options of manifest-generator streamToSlack (defaults:
`showWorkflowStatus = true`, `streamPartialText = false`). -/
structure Opts where
  showWorkflowStatus : Bool := true
  streamPartialText : Bool := false
deriving DecidableEq, Repr

/-- The display text computed by `updateSlackMessage` from the current relay
state. -/
def updateDisplayText (o : Opts) (st : RelaySt) : String :=
  if o.showWorkflowStatus then
    match st.workflowStep.status with
    | .thinking => LOADING_EMOJIS.getD st.loadingIndex "" ++ " Thinking..."
    | .tool_call =>
      WORKFLOW_EMOJIS.getD (st.loadingIndex % WORKFLOW_EMOJIS.length) "" ++
        " Calling tool: " ++ st.workflowStep.toolName.getD "undefined" ++ "..."
    | .responding =>
      if o.streamPartialText ∧ st.accumulatedText ≠ "" then
        LOADING_EMOJIS.getD st.loadingIndex "" ++ " " ++ st.accumulatedText ++ "..."
      else
        LOADING_EMOJIS.getD st.loadingIndex "" ++ " Responding..."
  else
    if o.streamPartialText ∧ st.accumulatedText ≠ "" then
      LOADING_EMOJIS.getD st.loadingIndex "" ++ " " ++ st.accumulatedText ++ "..."
    else
      LOADING_EMOJIS.getD st.loadingIndex "" ++ " Thinking..."

/-- One Output Sink interaction of a relay run.  `post` is the initial
`chat.postMessage`; `animUpdate` a `chat.update` issued by an animator tick;
`stopTimer` marks `clearInterval`; `terminal` a `chat.update` issued by the
orchestrator after the loop (the terminal write). -/
inductive Call where
  | post (text : String)
  | animUpdate (text : String)
  | stopTimer
  | terminal (text : String)
deriving DecidableEq, Repr

def isTerminal : Call → Bool
  | .terminal _ => true
  | _ => false

/-- `n` animator tick attempts at one suspension point.  While the interval
is active each tick increments `loadingIndex` and issues one update (guarded
by `if (displayText)` as in `updateSlackMessage`); once `clearInterval` has
run (`active = false`) a pending tick never fires, so no update is issued. -/
def doTicks (o : Opts) (active : Bool) : RelaySt → Nat → RelaySt × List Call
  | st, 0 => (st, [])
  | st, n + 1 =>
    if active then
      let st1 := { st with
        loadingIndex := (st.loadingIndex + 1) % LOADING_EMOJIS.length }
      let d := updateDisplayText o st1
      let r := doTicks o active st1 n
      (r.1, if d = "" then r.2 else Call.animUpdate d :: r.2)
    else (st, [])

/-- One iteration of the read loop body: append the chunk to the buffer,
split off the complete lines, keep the trailing partial line, process each
complete line. -/
def processChunk (toolIdMap : List (String × String)) (st : RelaySt)
    (ch : List Char) : RelaySt :=
  let p := splitNl (st.buffer ++ ch)
  processLines toolIdMap { st with buffer := p.2 } p.1

/-- The read loop.  Each `reader.read()` is a suspension point at which the
animator may tick some number of times (given by the schedule); the chunk is
then decoded and processed.  The final entry accounts for the read that
reports the stream ended (or fails).  Returns the tick-issued calls, the
final state, and the unconsumed schedule. -/
def loopReads (o : Opts) (toolIdMap : List (String × String)) :
    RelaySt → List (List Char) → List Nat → List Call × RelaySt × List Nat
  | st, [], sched =>
    let r := doTicks o true st (sched.headD 0)
    (r.2, r.1, sched.tail)
  | st, ch :: rest, sched =>
    let r := doTicks o true st (sched.headD 0)
    let st2 := processChunk toolIdMap r.1 ch
    let q := loopReads o toolIdMap st2 rest sched.tail
    (r.2 ++ q.1, q.2)

/-- How the inbound stream ends: the reader reports `done`, or the read (or
the stream setup) rejects. -/
inductive StreamEnd where
  | done
  | fail
deriving DecidableEq, Repr

/-- Whether streamToSlack resolves normally or re-raises a failure. -/
inductive RunResult where
  | ok
  | raised
deriving DecidableEq, Repr

/-- The fallback text of the normal-completion terminal write. -/
def fallbackText : String := "Sorry, I couldn't generate a response."

/-- The fixed error notice of the catch-block terminal write. -/
def errNotice : String := "❌ Sorry, I encountered an error processing your request."

/-- The text of the normal-completion terminal write: `accumulatedText`, or
the fallback when it is empty. -/
def finalText (st : RelaySt) : String :=
  if st.accumulatedText = "" then fallbackText else st.accumulatedText

def loopFinalState (o : Opts) (toolIdMap : List (String × String))
    (chunks : List (List Char)) (sched : List Nat) : RelaySt :=
  (loopReads o toolIdMap initSt chunks sched).2.1

/-- One manifest-generator streamToSlack run, as the sequence of Output Sink
interactions it issues and its result.

* `chunks` are the successful reads, `ending` how the stream then ends;
* `sched` gives the number of animator ticks at each suspension point,
  including the suspension of the terminal write itself, where the interval
  has already been cleared;
* `termOk` is whether the normal-path terminal `chat.update` succeeds: when
  it rejects, control moves to the catch block, which clears the interval
  again and issues the error-notice write;
* `errOk` is whether a catch-block `chat.update` succeeds: its failure is
  caught and logged, so the call is issued and nothing else changes. -/
def relayRun (o : Opts) (toolIdMap : List (String × String))
    (chunks : List (List Char)) (ending : StreamEnd) (sched : List Nat)
    (termOk errOk : Bool) : List Call × RunResult :=
  let l := loopReads o toolIdMap initSt chunks sched
  let pre := Call.post (LOADING_EMOJIS.getD 0 "" ++ " Thinking...") :: l.1
  let stF := l.2.1
  let schedRest := l.2.2
  match ending with
  | .done =>
    let attempts := (doTicks o false stF (schedRest.headD 0)).2
    if termOk then
      (pre ++ [Call.stopTimer, Call.terminal (finalText stF)] ++ attempts, .ok)
    else
      let attempts2 := (doTicks o false stF (schedRest.tail.headD 0)).2
      (pre ++ [Call.stopTimer, Call.terminal (finalText stF)] ++ attempts ++
        [Call.stopTimer] ++
        (if errOk then [Call.terminal errNotice] else [Call.terminal errNotice]) ++
        attempts2, .raised)
  | .fail =>
    let attempts := (doTicks o false stF (schedRest.headD 0)).2
    (pre ++ [Call.stopTimer] ++
      (if errOk then [Call.terminal errNotice] else [Call.terminal errNotice]) ++
      attempts, .raised)

/-- Outcome of the pre-stream `fetch` of agent metadata. -/
inductive FetchOutcome where
  | failure
  | notOk
  | ok (agentData : JVal)

/-- `tool.id || tool.name`. -/
def toolIdOf (tool : JVal) : Option String :=
  strFieldNE tool "id" <|> strFieldNE tool "name"

/-- `fetchAgentTools`: best-effort side-channel fetch of the agent metadata,
building the map from internal ordinal names to tool ids.  A thrown fetch is
caught and a non-ok response skipped, both yielding the empty map; `tools`
may be an object with ordinal keys or an array. -/
def fetchAgentTools : FetchOutcome → List (String × String)
  | .failure => []
  | .notOk => []
  | .ok agentData =>
    match agentData.getField "tools" with
    | some (.obj fs) =>
      fs.foldl (fun m kv =>
        match toolIdOf kv.2 with
        | some tid => mapSet m ("_" ++ kv.1) tid
        | none => m) []
    | some (.arr ts) =>
      ts.enum.foldl (fun m it =>
        match toolIdOf it.2 with
        | some tid => mapSet m ("_" ++ toString it.1) tid
        | none => m) []
    | _ => []

def SPINNER : List String :=
  ["⠋", "⠙", "⠹", "⠸", "⠼", "⠴", "⠦", "⠧", "⠇", "⠏"]

def TOOL_ICONS : List String :=
  ["🔄", "⚙️", "🔧", "⚡"]

/-- The `State` of streaming.ts. -/
structure StState where
  text : String
  status : Status
  toolName : Option String := none
deriving DecidableEq, Repr

/-- `getStatusText` of streaming.ts: render the state and frame counter into
the animated status line. -/
def getStatusText (state : StState) (frame : Nat) : String :=
  let spinner := SPINNER.getD (frame % SPINNER.length) ""
  let toolIcon := TOOL_ICONS.getD (frame % TOOL_ICONS.length) ""
  match state.status with
  | .thinking => spinner ++ " Thinking..."
  | .tool_call => toolIcon ++ " Using " ++ state.toolName.getD "undefined" ++ "..."
  | .responding => spinner ++ " Responding..."

/-- The catch block of streaming.ts streamToSlack, given that a message was
posted: one terminal `chat.update` whose text embeds the message of the
caught failure; the update failure is swallowed by `.catch` and the original
failure is rethrown either way. -/
def streamingCatchResult (errorMessage : String) (writeOk : Bool) :
    Call × RunResult :=
  (Call.terminal ("❌ Error: " ++ errorMessage),
   if writeOk then RunResult.raised else RunResult.raised)

/-- The text an event contributes to `accumulatedText`. -/
def evText : RelayEvent → String
  | .textDelta s => s
  | _ => ""

/-- The ordered concatenation of the text payloads of a line sequence. -/
def joinTexts : List (List Char) → String
  | [] => ""
  | l :: ls => lineText l ++ joinTexts ls

def initialPostText : String := LOADING_EMOJIS.getD 0 "" ++ " Thinking..."

/-- The relay state after a `"PLZ"` text delta: accumulated text `"PLZ"`,
status responding. -/
def stPLZ : RelaySt :=
  { accumulatedText := "PLZ"
    workflowStep := { status := .responding }
    toolDescriptions := []
    loadingIndex := 0
    buffer := [] }

def linePLZ : List Char :=
  "data: \x7b\"type\":\"text-delta\",\"payload\":\x7b\"text\":\"PLZ\"\x7d\x7d".data

def chunkPLZ : List Char := linePLZ ++ ['\n']

def lineHel : List Char :=
  "data: \x7b\"type\":\"text-delta\",\"payload\":\x7b\"text\":\"Hel\"\x7d\x7d".data

def lineLoW : List Char :=
  "data: \x7b\"type\":\"text-delta\",\"payload\":\x7b\"text\":\"lo w\"\x7d\x7d".data

def wholeHW : List Char := lineHel ++ '\n' :: (lineLoW ++ ['\n'])

def chunkH1 : List Char := wholeHW.take 30

def chunkH2 : List Char := wholeHW.drop 30

def wDone : List Char := lineHel ++ ['\n']

def pTail : List Char := "data: \x7b\"ty".data

theorem splitNl_append (a b : List Char) :
    splitNl (a ++ b) =
      ((splitNl a).1 ++ (splitNl ((splitNl a).2 ++ b)).1,
        (splitNl ((splitNl a).2 ++ b)).2) := by
  induction a with
  | nil => simp [splitNl]
  | cons c cs ih =>
    by_cases hc : c = '\n'
    · subst hc
      simp [splitNl, ih]
    · rcases h1 : (splitNl cs).1 with _ | ⟨l, ls⟩
      · have hcc : splitNl (c :: cs) = ([], c :: (splitNl cs).2) := by
          simp [splitNl, hc, h1]
        have hlhs : splitNl ((c :: cs) ++ b) = splitNl (c :: ((splitNl cs).2 ++ b)) := by
          rcases h2 : (splitNl ((splitNl cs).2 ++ b)).1 with _ | ⟨l2, ls2⟩
          · simp [splitNl, hc, ih, h1, h2]
          · simp [splitNl, hc, ih, h1, h2]
        rw [hlhs, hcc]
        simp
      · have hcc : splitNl (c :: cs) = ((c :: l) :: ls, (splitNl cs).2) := by
          simp [splitNl, hc, h1]
        rw [hcc]
        simp only [List.cons_append]
        rw [show splitNl (c :: (cs ++ b)) =
            (match (splitNl (cs ++ b)).1 with
             | [] => ([], c :: (splitNl (cs ++ b)).2)
             | l :: ls => ((c :: l) :: ls, (splitNl (cs ++ b)).2)) by
          simp [splitNl, hc]]
        rw [ih, h1]
        simp

theorem splitNl_no_nl (p : List Char) (h : '\n' ∉ p) : splitNl p = ([], p) := by
  induction p with
  | nil => simp [splitNl]
  | cons c cs ih =>
    rw [List.mem_cons, not_or] at h
    have hc : ¬ c = '\n' := fun e => h.1 e.symm
    simp [splitNl, hc, ih h.2]

theorem splitNl_snd_no_nl (cs : List Char) : '\n' ∉ (splitNl cs).2 := by
  induction cs with
  | nil => simp [splitNl]
  | cons c cs ih =>
    by_cases hc : c = '\n'
    · subst hc
      simpa [splitNl] using ih
    · rcases h1 : (splitNl cs).1 with _ | ⟨l, ls⟩
      · have hcc : splitNl (c :: cs) = ([], c :: (splitNl cs).2) := by
          simp [splitNl, hc, h1]
        rw [hcc]
        intro hmem
        rcases List.mem_cons.mp hmem with e | hm
        · exact hc e.symm
        · exact ih hm
      · have hcc : splitNl (c :: cs) = ((c :: l) :: ls, (splitNl cs).2) := by
          simp [splitNl, hc, h1]
        rw [hcc]
        exact ih

theorem splitNl_eq_nilnil (w : List Char) (h : splitNl w = ([], [])) : w = [] := by
  cases w with
  | nil => rfl
  | cons c cs =>
    by_cases hc : c = '\n'
    · subst hc
      simp [splitNl] at h
    · rcases h1 : (splitNl cs).1 with _ | ⟨l, ls⟩
      · have hcc : splitNl (c :: cs) = ([], c :: (splitNl cs).2) := by
          simp [splitNl, hc, h1]
        rw [hcc] at h
        simp at h
      · have hcc : splitNl (c :: cs) = ((c :: l) :: ls, (splitNl cs).2) := by
          simp [splitNl, hc, h1]
        rw [hcc] at h
        simp at h

theorem splitNl_snd_nil (w : List Char) (h : w.getLast? = some '\n') :
    (splitNl w).2 = [] := by
  induction w with
  | nil => simp at h
  | cons c cs ih =>
    cases cs with
    | nil =>
      have hc : c = '\n' := by simpa [List.getLast?] using h
      subst hc
      simp [splitNl]
    | cons d ds =>
      have h2 : (d :: ds).getLast? = some '\n' := by
        rwa [List.getLast?_cons_cons] at h
      have ih2 := ih h2
      by_cases hc : c = '\n'
      · subst hc
        simpa [splitNl] using ih2
      · rcases h1 : (splitNl (d :: ds)).1 with _ | ⟨l, ls⟩
        · exfalso
          have hnil : splitNl (d :: ds) = ([], []) := by
            rw [Prod.ext_iff]
            exact ⟨h1, ih2⟩
          exact (List.cons_ne_nil d ds) (splitNl_eq_nilnil _ hnil)
        · have hcc : splitNl (c :: d :: ds) = ((c :: l) :: ls, (splitNl (d :: ds)).2) := by
            rw [show splitNl (c :: d :: ds) =
                (if c = '\n' then ([] :: (splitNl (d :: ds)).1, (splitNl (d :: ds)).2)
                 else
                   match (splitNl (d :: ds)).1 with
                   | [] => ([], c :: (splitNl (d :: ds)).2)
                   | l :: ls => ((c :: l) :: ls, (splitNl (d :: ds)).2)) from rfl]
            rw [if_neg hc, h1]
          rw [hcc]
          exact ih2

theorem feedChunks_eq_splitNl (buf : List Char) (chunks : List (List Char))
    (h : '\n' ∉ buf) :
    feedChunks buf chunks = splitNl (buf ++ chunks.flatten) := by
  induction chunks generalizing buf with
  | nil => simp [feedChunks, splitNl_no_nl buf h]
  | cons ch rest ih =>
    simp only [feedChunks, List.flatten_cons]
    rw [ih (splitNl (buf ++ ch)).2 (splitNl_snd_no_nl _)]
    rw [← List.append_assoc, splitNl_append (buf ++ ch) rest.flatten]



theorem applyEvent_acc (tm : List (String × String)) (st : RelaySt)
    (e : RelayEvent) :
    (applyEvent tm st e).accumulatedText = st.accumulatedText ++ evText e := by
  cases e with
  | textDelta s =>
    by_cases hs : s = ""
    · subst hs
      simp [applyEvent, evText]
    · simp [applyEvent, evText, hs]
  | stepStart pairs => simp [applyEvent, evText]
  | toolCallStart raw => simp [applyEvent, evText]
  | toolCallEnd => simp [applyEvent, evText]
  | meta => simp [applyEvent, evText]
  | unknown => simp [applyEvent, evText]

theorem processLine_acc (tm : List (String × String)) (st : RelaySt)
    (l : List Char) :
    (processLine tm st l).accumulatedText = st.accumulatedText ++ lineText l := by
  unfold processLine lineText
  cases h : decodeLine l with
  | none => simp
  | some e =>
    rw [applyEvent_acc]
    cases e <;> simp [evText]

theorem processLines_acc (tm : List (String × String)) (st : RelaySt)
    (lines : List (List Char)) :
    (processLines tm st lines).accumulatedText =
      st.accumulatedText ++ joinTexts lines := by
  induction lines generalizing st with
  | nil => simp [processLines, joinTexts]
  | cons l ls ih =>
    show (processLines tm (processLine tm st l) ls).accumulatedText = _
    rw [ih, processLine_acc, joinTexts, String.append_assoc]

theorem doTicks_inactive (o : Opts) (st : RelaySt) (n : Nat) :
    doTicks o false st n = (st, []) := by
  cases n <;> simp [doTicks]

theorem doTicks_calls_anim (o : Opts) (n : Nat) :
    ∀ st, ∀ c ∈ (doTicks o true st n).2, ∃ s, c = Call.animUpdate s := by
  induction n with
  | zero => intro st c hc; simp [doTicks] at hc
  | succ n ih =>
    intro st c hc
    simp only [doTicks, if_true] at hc
    by_cases hd :
        updateDisplayText o
          { st with loadingIndex := (st.loadingIndex + 1) % LOADING_EMOJIS.length } = ""
    · rw [if_pos hd] at hc
      exact ih _ c hc
    · rw [if_neg hd] at hc
      rcases List.mem_cons.mp hc with e | hm
      · exact ⟨_, e⟩
      · exact ih _ c hm

theorem loopReads_calls_anim (o : Opts) (tm : List (String × String))
    (chunks : List (List Char)) :
    ∀ st sched, ∀ c ∈ (loopReads o tm st chunks sched).1,
      ∃ s, c = Call.animUpdate s := by
  induction chunks with
  | nil =>
    intro st sched c hc
    exact doTicks_calls_anim o _ st c hc
  | cons ch rest ih =>
    intro st sched c hc
    simp only [loopReads] at hc
    rcases List.mem_append.mp hc with hm | hm
    · exact doTicks_calls_anim o _ st c hm
    · exact ih _ _ c hm


theorem relayRun_done_eq (o : Opts) (tm : List (String × String))
    (chunks : List (List Char)) (sched : List Nat) (errOk : Bool) :
    relayRun o tm chunks StreamEnd.done sched true errOk =
      (Call.post initialPostText ::
        ((loopReads o tm initSt chunks sched).1 ++
          [Call.stopTimer, Call.terminal (finalText (loopFinalState o tm chunks sched))]),
        RunResult.ok) := by
  unfold relayRun loopFinalState initialPostText
  simp [doTicks_inactive]

theorem relayRun_fail_eq (o : Opts) (tm : List (String × String))
    (chunks : List (List Char)) (sched : List Nat) (termOk errOk : Bool) :
    relayRun o tm chunks StreamEnd.fail sched termOk errOk =
      (Call.post initialPostText ::
        ((loopReads o tm initSt chunks sched).1 ++
          [Call.stopTimer, Call.terminal errNotice]),
        RunResult.raised) := by
  unfold relayRun initialPostText
  simp [doTicks_inactive]

theorem loopReads_filter_terminal (o : Opts) (tm : List (String × String))
    (chunks : List (List Char)) (st : RelaySt) (sched : List Nat) :
    ((loopReads o tm st chunks sched).1).filter isTerminal = [] := by
  rw [List.filter_eq_nil_iff]
  intro a ha
  obtain ⟨s, rfl⟩ := loopReads_calls_anim o tm chunks st sched a ha
  simp [isTerminal]

theorem relayRun_terminal_shape (o : Opts) (tm : List (String × String))
    (chunks : List (List Char)) (ending : StreamEnd) (sched : List Nat)
    (errOk : Bool) :
    ((relayRun o tm chunks ending sched true errOk).1).filter isTerminal =
        [Call.terminal (match ending with
          | .done => finalText (loopFinalState o tm chunks sched)
          | .fail => errNotice)]
    ∧ ((relayRun o tm chunks ending sched true errOk).1).getLast? =
        some (Call.terminal (match ending with
          | .done => finalText (loopFinalState o tm chunks sched)
          | .fail => errNotice)) := by
  cases ending with
  | done =>
    rw [relayRun_done_eq]
    constructor
    · simp [List.filter_append, List.filter_cons, isTerminal,
        loopReads_filter_terminal]
    · rw [show Call.post initialPostText ::
          ((loopReads o tm initSt chunks sched).1 ++
            [Call.stopTimer, Call.terminal (finalText (loopFinalState o tm chunks sched))]) =
          (Call.post initialPostText ::
            ((loopReads o tm initSt chunks sched).1 ++ [Call.stopTimer])) ++
            [Call.terminal (finalText (loopFinalState o tm chunks sched))] by simp]
      exact List.getLast?_concat _
  | fail =>
    rw [relayRun_fail_eq]
    constructor
    · simp [List.filter_append, List.filter_cons, isTerminal,
        loopReads_filter_terminal]
    · rw [show Call.post initialPostText ::
          ((loopReads o tm initSt chunks sched).1 ++
            [Call.stopTimer, Call.terminal errNotice]) =
          (Call.post initialPostText ::
            ((loopReads o tm initSt chunks sched).1 ++ [Call.stopTimer])) ++
            [Call.terminal errNotice] by simp]
      exact List.getLast?_concat _

/-- C1: For every event sequence and every way the stream ends (normal end
or transport failure), the relay performs exactly one terminal Output Sink
write, with the final or the error text, and no Output Sink call occurs
after that terminal write — the cleared animation timer fires no pending
tick (tick attempts at the suspension points after `clearInterval`, given by
the remaining schedule, issue nothing). -/
theorem C1_single_terminal_write (o : Opts) (tm : List (String × String))
    (chunks : List (List Char)) (ending : StreamEnd) (sched : List Nat)
    (errOk : Bool) :
    ∃ t, ((relayRun o tm chunks ending sched true errOk).1).filter isTerminal = [Call.terminal t]
      ∧ ((relayRun o tm chunks ending sched true errOk).1).getLast? = some (Call.terminal t)
      ∧ t = (match ending with
             | .done => finalText (loopFinalState o tm chunks sched)
             | .fail => errNotice) :=
  ⟨_, (relayRun_terminal_shape o tm chunks ending sched errOk).1,
    (relayRun_terminal_shape o tm chunks ending sched errOk).2, rfl⟩

/-- C4: When the stream completes normally, the relay stops the Animator
first (the `stopTimer` mark directly precedes the terminal write, and occurs
nowhere earlier) and then performs exactly one final write whose text is
`accumulatedText` when it is non-empty and the fixed fallback string
otherwise. -/
theorem C4_normal_completion_write (o : Opts) (tm : List (String × String))
    (chunks : List (List Char)) (sched : List Nat) (errOk : Bool) :
    ∃ pre,
      (relayRun o tm chunks StreamEnd.done sched true errOk).1 =
        pre ++ [Call.stopTimer,
          Call.terminal
            (if (loopFinalState o tm chunks sched).accumulatedText = ""
              then "Sorry, I couldn't generate a response."
              else (loopFinalState o tm chunks sched).accumulatedText)]
      ∧ (relayRun o tm chunks StreamEnd.done sched true errOk).2 = RunResult.ok
      ∧ Call.stopTimer ∉ pre
      ∧ ∀ c ∈ pre, isTerminal c = false := by
  refine ⟨Call.post initialPostText :: (loopReads o tm initSt chunks sched).1,
    ?_, ?_, ?_, ?_⟩
  · rw [relayRun_done_eq]
    simp [finalText, fallbackText]
  · rw [relayRun_done_eq]
  · intro hmem
    rcases List.mem_cons.mp hmem with e | hm
    · exact Call.noConfusion e
    · obtain ⟨s, e⟩ := loopReads_calls_anim o tm chunks initSt sched _ hm
      exact Call.noConfusion e
  · intro c hc
    rcases List.mem_cons.mp hc with e | hm
    · subst e; rfl
    · obtain ⟨s, e⟩ := loopReads_calls_anim o tm chunks initSt sched c hm
      subst e; rfl

/-- C5 (amended): When the inbound stream or read loop fails, the
manifest-generator relay's terminal write carries the fixed notice
`errNotice` — computed without reference to the partial accumulated text,
whatever chunks were read — the failure of a catch-block write is swallowed
(the trace and result do not depend on `errOk`), and the original failure is
re-raised after the write attempt; the streaming.ts relay behaves the same
except that its terminal text is `"❌ Error: "` followed by the failure's
message rather than one fixed string. -/
theorem C5_error_terminal_write (o : Opts) (tm : List (String × String))
    (chunks : List (List Char)) (sched : List Nat) (termOk errOk : Bool) :
    (∃ pre,
      (relayRun o tm chunks StreamEnd.fail sched termOk errOk).1 =
          pre ++ [Call.terminal errNotice]
        ∧ (relayRun o tm chunks StreamEnd.fail sched termOk errOk).2 = RunResult.raised)
    ∧ (∀ m w, streamingCatchResult m w =
        (Call.terminal ("❌ Error: " ++ m), RunResult.raised)) := by
  constructor
  · refine ⟨Call.post initialPostText ::
      ((loopReads o tm initSt chunks sched).1 ++ [Call.stopTimer]), ?_, ?_⟩
    · rw [relayRun_fail_eq]
      simp
    · rw [relayRun_fail_eq]
  · intro m w
    cases w <;> rfl

/-- C5 counterexample: the claim calls the failure notice fixed, but the
streaming.ts relay cited alongside embeds the failure's message in the
terminal write, so two failing runs produce two different notices. -/
theorem C5_counterexample :
    (streamingCatchResult "boom" true).1 ≠ (streamingCatchResult "socket hang up" true).1
    ∧ (streamingCatchResult "boom" true).1 = Call.terminal "❌ Error: boom" := by
  constructor
  · decide
  · rfl

/-- C2: the accumulated text after processing a line sequence is the ordered
concatenation of the text payloads of its text-delta, text and content
events, and a line whose payload is not valid JSON after the marker is
stripped emits no event and leaves the state unchanged (the decode never
aborts). -/
theorem C2_accumulated_text_concat (tm : List (String × String))
    (lines : List (List Char)) :
    (processLines tm initSt lines).accumulatedText = joinTexts lines
    ∧ ∀ l st, jsonParse (l.drop 6) = none →
        decodeLine l = none ∧ processLine tm st l = st := by
  constructor
  · rw [processLines_acc]
    simp [initSt]
  · intro l st h
    have hd : decodeLine l = none := by
      unfold decodeLine
      by_cases h6 : l.take 6 = "data: ".data
      · by_cases hdone : l.drop 6 = "[DONE]".data
        · simp [h6, hdone]
        · simp [h6, hdone, h]
      · simp [h6]
    refine ⟨hd, ?_⟩
    unfold processLine
    rw [hd]

/-- C3: feeding a byte sequence to the decoder in arbitrarily split
non-empty chunks yields exactly the relay-event sequence of feeding it
whole. -/
theorem C3_chunking_invariance (chunks : List (List Char)) (whole : List Char)
    (hjoin : chunks.flatten = whole) (hne : ∀ c ∈ chunks, c ≠ []) :
    eventsOfChunks chunks = eventsOfChunks [whole] := by
  subst hjoin
  unfold eventsOfChunks
  rw [feedChunks_eq_splitNl [] chunks (by simp),
    feedChunks_eq_splitNl [] [chunks.flatten] (by simp)]
  simp

/-- C8: the `[DONE]` sentinel line carries no event and does not terminate
the decode: lines after it are consumed exactly as if the sentinel were
absent, both for the event sequence and for the relay state. -/
theorem C8_sentinel_is_ignored :
    decodeLine ("data: [DONE]".data) = none
    ∧ (∀ pre post : List (List Char),
        eventsOfLines (pre ++ "data: [DONE]".data :: post) = eventsOfLines (pre ++ post))
    ∧ (∀ (tm : List (String × String)) (st : RelaySt) (pre post : List (List Char)),
        processLines tm st (pre ++ "data: [DONE]".data :: post) =
          processLines tm st (pre ++ post)) := by
  have hs : decodeLine ("data: [DONE]".data) = none := by rfl
  refine ⟨hs, ?_, ?_⟩
  · intro pre post
    simp [eventsOfLines, List.filterMap_append, List.filterMap_cons, hs]
  · intro tm st pre post
    unfold processLines
    rw [List.foldl_append, List.foldl_append, List.foldl_cons]
    have : processLine tm (List.foldl (processLine tm) st pre) ("data: [DONE]".data) =
        List.foldl (processLine tm) st pre := by
      unfold processLine
      rw [hs]
    rw [this]

/-- C6: tool-name resolution precedence — a pre-fetched id always wins and
is formatted, the stream-registered description is used exactly when no
pre-fetched id exists, and a failed side-channel pre-fetch yields the empty
map without aborting the relay: the relay still runs to its terminal
write. -/
theorem C6_prefetched_id_wins :
    (∀ (tm descs : List (String × String)) (raw tid : String),
        mapGet tm raw = some tid →
        resolveDisplayName tm descs raw = formatToolName tid)
    ∧ (∀ (tm descs : List (String × String)) (raw d : String),
        mapGet tm raw = none → mapGet descs raw = some d →
        resolveDisplayName tm descs raw = d)
    ∧ fetchAgentTools FetchOutcome.failure = []
    ∧ (∀ (o : Opts) (chunks : List (List Char)) (ending : StreamEnd)
        (sched : List Nat) (errOk : Bool),
        ∃ t, ((relayRun o (fetchAgentTools FetchOutcome.failure) chunks ending
            sched true errOk).1).getLast? = some (Call.terminal t)) := by
  refine ⟨?_, ?_, rfl, ?_⟩
  · intro tm descs raw tid h
    unfold resolveDisplayName
    rw [h]
  · intro tm descs raw d h1 h2
    unfold resolveDisplayName
    rw [h1, h2]
  · intro o chunks ending sched errOk
    exact ⟨_, (relayRun_terminal_shape o (fetchAgentTools FetchOutcome.failure)
      chunks ending sched errOk).2⟩

/-- C7 counterexample: with no pre-fetched id and no registered description,
streamToSlack (manifest-generator) displays the raw internal reference
unformatted — `"reverse-text"`, not the title-cased `"Reverse Text"` the
claim requires. -/
theorem C7_counterexample :
    resolveDisplayName [] [] "reverse-text" = "reverse-text"
    ∧ formatToolName "reverse-text" = "Reverse Text"
    ∧ resolveDisplayName [] [] "reverse-text" ≠ formatToolName "reverse-text" := by
  refine ⟨rfl, by decide, by decide⟩

/-- C7 (amended): in manifest-generator streamToSlack the last-resort
display name is the raw internal reference unchanged (formatToolName is
applied only to pre-fetched ids), and the formatting function itself is a
pure function mapping `"reverse-text"` to `"Reverse Text"`. -/
theorem C7_last_resort_is_raw :
    (∀ (tm descs : List (String × String)) (raw : String),
        mapGet tm raw = none → mapGet descs raw = none →
        resolveDisplayName tm descs raw = raw)
    ∧ formatToolName "reverse-text" = "Reverse Text" := by
  constructor
  · intro tm descs raw h1 h2
    unfold resolveDisplayName
    rw [h1, h2]
  · decide




/-- C9 counterexample: with `streamPartialText := true` an animator tick
taken while the status is Responding renders the partial accumulated text —
a concrete run whose trace contains the tick update `"⠙ PLZ..."`, which is
the spinner, a space, the whole accumulated text and dots. -/
theorem C9_counterexample :
    Call.animUpdate "⠙ PLZ..." ∈
      (relayRun { showWorkflowStatus := true, streamPartialText := true } []
        [chunkPLZ] StreamEnd.done [0, 1] true true).1
    ∧ "⠙ PLZ...".data = "⠙ ".data ++ "PLZ".data ++ "...".data := by
  constructor
  · decide
  · decide

/-- C9 (amended): when `streamPartialText` is false (its default), an
animator tick taken while the status is Responding renders the spinner and
the fixed label `"Responding..."`, computed without reference to the
accumulated text; the streaming.ts animator renders the same label for
Responding unconditionally. -/
theorem C9_responding_renders_generic_label :
    (∀ st : RelaySt, st.workflowStep.status = Status.responding →
        updateDisplayText { showWorkflowStatus := true, streamPartialText := false } st =
          LOADING_EMOJIS.getD st.loadingIndex "" ++ " Responding...")
    ∧ (∀ (state : StState) (frame : Nat), state.status = Status.responding →
        getStatusText state frame =
          SPINNER.getD (frame % SPINNER.length) "" ++ " Responding...") := by
  constructor
  · intro st h
    simp [updateDisplayText, h]
  · intro state frame h
    simp [getStatusText, h]

/-- C10: a trailing line not terminated by a newline stays in the decoder
buffer when the transport reports done: it yields no relay event and leaves
the accumulated text and the terminal-write text exactly as if the stream
had ended at the last newline. -/
theorem C10_trailing_partial_line_discarded (tm : List (String × String))
    (w p : List Char) (h1 : w = [] ∨ w.getLast? = some '\n')
    (h2 : '\n' ∉ p) (h3 : p ≠ []) :
    eventsOfChunks [w ++ p] = eventsOfChunks [w]
    ∧ (feedChunks [] [w ++ p]).2 = p
    ∧ finalText (processLines tm initSt (feedChunks [] [w ++ p]).1) =
        finalText (processLines tm initSt (feedChunks [] [w]).1) := by
  have hw : (splitNl w).2 = [] := by
    rcases h1 with rfl | hlast
    · simp [splitNl]
    · exact splitNl_snd_nil w hlast
  have hkey : splitNl (w ++ p) = ((splitNl w).1, p) := by
    rw [splitNl_append w p, hw]
    simp [splitNl_no_nl p h2]
  have hfc : ∀ x : List Char, feedChunks [] [x] = ((splitNl x).1, (splitNl x).2) := by
    intro x
    simp [feedChunks]
  refine ⟨?_, ?_, ?_⟩
  · unfold eventsOfChunks
    rw [hfc, hfc, hkey]
  · rw [hfc, hkey]
  · rw [hfc, hfc, hkey]

/-- C3 witness: a two-line frame sequence split mid-line into two chunks
decodes to the same two text-delta events as the whole sequence. -/
theorem C3_witness :
    ([chunkH1, chunkH2] : List (List Char)).flatten = wholeHW
    ∧ (∀ c ∈ ([chunkH1, chunkH2] : List (List Char)), c ≠ [])
    ∧ eventsOfChunks [chunkH1, chunkH2] = eventsOfChunks [wholeHW]
    ∧ eventsOfChunks [wholeHW] =
        [RelayEvent.textDelta "Hel", RelayEvent.textDelta "lo w"] := by
  have hj : ([chunkH1, chunkH2] : List (List Char)).flatten = wholeHW := by decide
  have hne : ∀ c ∈ ([chunkH1, chunkH2] : List (List Char)), c ≠ [] := by decide
  exact ⟨hj, hne, C3_chunking_invariance [chunkH1, chunkH2] wholeHW hj hne, by decide⟩

/-- C10 witness: a complete text-delta line followed by an unterminated
partial line decodes as the complete line alone, the partial line stays in
the buffer, and the terminal-write text is unchanged. -/
theorem C10_witness :
    eventsOfChunks [wDone ++ pTail] = eventsOfChunks [wDone]
    ∧ (feedChunks [] [wDone ++ pTail]).2 = pTail
    ∧ finalText (processLines [] initSt (feedChunks [] [wDone ++ pTail]).1) =
        finalText (processLines [] initSt (feedChunks [] [wDone]).1) :=
  C10_trailing_partial_line_discarded [] wDone pTail (Or.inr (by decide))
    (by decide) (by decide)
